import Mathlib

/-!  Verification model of the AI Passport repository dataset scanner
(file `scan.py`).

The Python source is shallowly embedded:

* the four regular expressions of `DatasetScanner.scan_repository` are
  translated into explicit scanners over character lists (`re.findall`
  semantics: leftmost, non-overlapping, case-insensitive literals);
* the mutable `self.datasets_found` accumulator becomes a fold of
  `add_entry` over the candidate entries in discovery order;
* the network call `_fetch_hf_license` becomes an oracle parameter
  `fetch : String → Option String`; `none` models every failure mode that
  the function's catch-all `except` (and its empty-licence check) turns
  into `None`;
* Python string primitives (`str.lower`, `str.strip`, substring `in`,
  `str.replace`, `urlparse(...).netloc`) are modelled on their ASCII
  fragment, which covers all strings the scanner manipulates.
-/

/-- ASCII lower-casing of one character: models `str.lower()` and the
effect of `re.IGNORECASE` on the ASCII literals of the patterns. -/
def lcChar (c : Char) : Char :=
  if 'A' ≤ c ∧ c ≤ 'Z' then Char.ofNat (c.toNat + 32) else c

/-- Models Python `str.lower()` (ASCII fragment). -/
def pyLower (s : String) : String := ⟨s.data.map lcChar⟩

/-- Python `\s` and `str.strip()` whitespace (ASCII fragment). -/
def isPySpace (c : Char) : Bool :=
  c = ' ' || c = '\t' || c = '\n' || c = '\r' || c = '\x0b' || c = '\x0c'

/-- A single or double quote, the character class `['\"]` of the patterns. -/
def isQuoteChar (c : Char) : Bool := c = '\x27' || c = '"'

/-- Strip characters satisfying `p` from both ends (Python `str.strip`). -/
def pyStripBoth (p : Char → Bool) (l : List Char) : List Char :=
  ((l.dropWhile p).reverse.dropWhile p).reverse

/-- Models Python `str.strip()` (no argument: whitespace). -/
def pyStrip (s : String) : String := ⟨pyStripBoth isPySpace s.data⟩

/-- Models Python `str.strip("/")`. -/
def stripSlashes (s : String) : String := ⟨pyStripBoth (fun c => c = '/') s.data⟩

/-- Models Python substring test `needle in hay`. -/
def pyIn : List Char → List Char → Bool
  | needle, [] => needle.isEmpty
  | needle, c :: t => needle.isPrefixOf (c :: t) || pyIn needle t

/-- One step of Python `str.replace(needle, "")`, fuelled by the input
length (the needle used by the scanner is never empty, so fuel equal to
the length of the string always suffices). -/
def pyReplaceAux (needle : List Char) : Nat → List Char → List Char
  | _, [] => []
  | 0, l => l
  | n + 1, c :: cs =>
    if needle ≠ [] ∧ needle.isPrefixOf (c :: cs) then
      pyReplaceAux needle n (cs.drop (needle.length - 1))
    else c :: pyReplaceAux needle n cs

/-- Models Python `str.replace(needle, "")` for a non-empty needle. -/
def pyReplace (needle s : List Char) : List Char := pyReplaceAux needle s.length s

/-! ### Regex matchers

Each matcher tries to match its pattern at the head of the input and, on
success, returns the captured group(s) together with the remaining input
after the whole match.  `findall` then scans the input left to right,
restarting after each match, exactly like `re.findall`. -/

/-- Match a literal case-insensitively (`re.IGNORECASE`), returning the rest. -/
def matchLitCI : List Char → List Char → Option (List Char)
  | [], s => some s
  | _ :: _, [] => none
  | l :: ls, c :: cs => if lcChar c = lcChar l then matchLitCI ls cs else none

/-- Like `matchLitCI`, but also return the consumed source characters
(needed when the literal is inside a capture group). -/
def matchLitCIKeep : List Char → List Char → Option (List Char × List Char)
  | [], s => some ([], s)
  | _ :: _, [] => none
  | l :: ls, c :: cs =>
    if lcChar c = lcChar l then
      match matchLitCIKeep ls cs with
      | some (k, r) => some (c :: k, r)
      | none => none
    else none

/-- The common tail `\s*\(\s*['\"]([^'\"]+)['\"]` of the two call-like
patterns: optional whitespace, an opening parenthesis, optional
whitespace, a quote, a non-empty run of non-quote characters (captured),
and a closing quote. -/
def matchCallArg (s : List Char) : Option (List Char × List Char) :=
  match s.dropWhile isPySpace with
  | '(' :: s2 =>
    match (s2.dropWhile isPySpace) with
    | q :: s4 =>
      if isQuoteChar q then
        let cap := s4.takeWhile (fun c => !(isQuoteChar c))
        match s4.dropWhile (fun c => !(isQuoteChar c)) with
        | q2 :: s5 => if isQuoteChar q2 && !cap.isEmpty then some (cap, s5) else none
        | [] => none
      else none
    | [] => none
  | _ => none

/-- Pattern `huggingface_load_dataset`:
`load_dataset\s*\(\s*['\"]([^'\"]+)['\"]`. -/
def matchLoadDataset (s : List Char) : Option (List Char × List Char) :=
  match matchLitCI "load_dataset".data s with
  | some rest => matchCallArg rest
  | none => none

/-- Pattern `pandas_read_csv`:
`(?:pd\.read_csv|pandas\.read_csv)\s*\(\s*['\"]([^'\"]+)['\"]`. -/
def matchReadCsv (s : List Char) : Option (List Char × List Char) :=
  match matchLitCI "pd.read_csv".data s with
  | some rest => matchCallArg rest
  | none =>
    match matchLitCI "pandas.read_csv".data s with
    | some rest => matchCallArg rest
    | none => none

/-- The data-file extensions recognised by the scanner. -/
def DATA_EXTS : List String := [".csv", ".jsonl", ".parquet", ".zip"]

/-- Does the capture end (case-insensitively, by `re.IGNORECASE`) in one
of the data-file extensions? -/
def endsWithDataExt (cap : List Char) : Bool :=
  DATA_EXTS.any (fun e => e.data.isSuffixOf (cap.map lcChar))

/-- Pattern `dataset_urls`:
`['\"]([^'\"]*(?:\.csv|\.jsonl|\.parquet|\.zip))['\"]`: a quote, a run of
non-quote characters ending in a data-file extension (captured), a quote. -/
def matchDatasetUrl (s : List Char) : Option (List Char × List Char) :=
  match s with
  | q :: s1 =>
    if isQuoteChar q then
      let cap := s1.takeWhile (fun c => !(isQuoteChar c))
      match s1.dropWhile (fun c => !(isQuoteChar c)) with
      | q2 :: s2 => if isQuoteChar q2 && endsWithDataExt cap then some (cap, s2) else none
      | [] => none
    else none
  | [] => none

/-- Core of pattern `huggingface_datasets` after the optional opening
quote: `(https?://)?(?:www\.)?huggingface\.co/datasets/([^'\"\s]+)['\"]?`.
Returns (group 1 = protocol, group 2 = dataset path) and the rest.  The
optional pieces commit greedily; the fallback alternative can never
succeed when the greedy one matched, because the literal that follows
starts with a different character. -/
def matchHfCore (s : List Char) : Option ((List Char × List Char) × List Char) :=
  let ps :=
    match matchLitCIKeep "https://".data s with
    | some kr => kr
    | none =>
      match matchLitCIKeep "http://".data s with
      | some kr => kr
      | none => ([], s)
  let s2 :=
    match matchLitCI "www.".data ps.2 with
    | some r => r
    | none => ps.2
  match matchLitCI "huggingface.co/datasets/".data s2 with
  | some s3 =>
    let cap := s3.takeWhile (fun c => !(isQuoteChar c) && !(isPySpace c))
    if cap.isEmpty then none
    else
      let s4 := s3.drop cap.length
      let s5 :=
        match s4 with
        | q :: r => if isQuoteChar q then r else s4
        | [] => s4
      some ((ps.1, cap), s5)
  | none => none

/-- Pattern `huggingface_datasets`:
`['\"]?(https?://)?(?:www\.)?huggingface\.co/datasets/([^'\"\s]+)['\"]?`.
If the head is a quote it is consumed; when the core then fails, the
un-consumed alternative fails too (the core can never start at a quote). -/
def matchHfUrl (s : List Char) : Option ((List Char × List Char) × List Char) :=
  match s with
  | [] => none
  | c :: cs => if isQuoteChar c then matchHfCore cs else matchHfCore (c :: cs)

/-- `re.findall` driver, fuelled by the input length: try the matcher at
each position; on success emit the capture and continue after the match
(all matchers consume at least one character). -/
def findallAux {α : Type} (m : List Char → Option (α × List Char)) :
    Nat → List Char → List α
  | 0, _ => []
  | _ + 1, [] => []
  | n + 1, c :: cs =>
    match m (c :: cs) with
    | some (a, rest) => a :: findallAux m n rest
    | none => findallAux m n cs

/-- Models `re.findall(pattern, text, re.IGNORECASE)`. -/
def findall {α : Type} (m : List Char → Option (α × List Char)) (s : List Char) :
    List α :=
  findallAux m s.length s

/-! ### Scan phase: candidate entries, normalization, filter, dedup -/

/-- One discovered dataset reference: the dict built in `_scan_file`,
plus the four classification fields added later by
`enrich_with_licences` (absent, i.e. `none`, until enrichment). -/
structure Entry where
  type : String
  reference : String
  file : String
  found_at : String
  licence : Option String := none
  licence_source : Option String := none
  notes : Option String := none
  risk_flag : Option String := none
deriving DecidableEq

/-- A `re.findall` result: a plain string for a single-group pattern, a
tuple of group strings for a multi-group pattern. -/
inductive ReMatch where
  | single (s : String)
  | groups (gs : List String)
deriving DecidableEq

/-- The generic-token denylist `GENERIC_TOKENS` of `_scan_file`. -/
def GENERIC_TOKENS : List String :=
  ["name", "dataset_name", ".csv", ".jsonl", ".parquet", ".zip"]

/-- Normalization of one match in `_scan_file`: for the
`huggingface_datasets` rule keep the second capture group, for any other
tuple-valued rule join the groups (`''.join(m)`), then strip surrounding
whitespace (`(m or "").strip()`). -/
def normalize_match (ptype : String) (m : ReMatch) : String :=
  match m with
  | ReMatch.single s => pyStrip s
  | ReMatch.groups gs =>
    if ptype = "huggingface_datasets" then pyStrip (gs.getD 1 "")
    else pyStrip (String.join gs)

/-- The candidate-filter guard of `_scan_file`:
`if not ref or ref in GENERIC_TOKENS or len(ref) < 3: continue`. -/
def passes_filter (r : String) : Bool :=
  decide (¬(r = "" ∨ r ∈ GENERIC_TOKENS ∨ r.length < 3))

/-- The dedup key `f"{type}:{reference.lower()}"` of `_scan_file`. -/
def dedup_key (e : Entry) : String := e.type ++ ":" ++ pyLower e.reference

/-- Processing of one candidate in `_scan_file`: drop it if it fails the
filter or an entry with the same key was already found, otherwise append. -/
def add_entry (acc : List Entry) (c : Entry) : List Entry :=
  if passes_filter c.reference then
    if ∃ d ∈ acc, dedup_key d = dedup_key c then acc else acc ++ [c]
  else acc

/-- The entry dict built in `_scan_file` for one normalized match. -/
def mk_candidate (ptype : String) (m : ReMatch) (file ts : String) : Entry :=
  { type := ptype, reference := normalize_match ptype m, file := file, found_at := ts }

/-- One eligible file handed to `_scan_file`: its repository-relative
path, its text, and the `datetime.now()` timestamp of the scan. -/
structure FileInput where
  path : String
  text : String
  ts : String
deriving DecidableEq

/-- All candidate entries `_scan_file` derives from one file, in pattern
order (the insertion order of the `patterns` dict) and, within a
pattern, in `re.findall` order. -/
def file_candidates (f : FileInput) : List Entry :=
  ((findall matchLoadDataset f.text.data).map
    (fun cap => mk_candidate "huggingface_load_dataset" (ReMatch.single ⟨cap⟩) f.path f.ts)) ++
  ((findall matchReadCsv f.text.data).map
    (fun cap => mk_candidate "pandas_read_csv" (ReMatch.single ⟨cap⟩) f.path f.ts)) ++
  ((findall matchDatasetUrl f.text.data).map
    (fun cap => mk_candidate "dataset_urls" (ReMatch.single ⟨cap⟩) f.path f.ts)) ++
  ((findall matchHfUrl f.text.data).map
    (fun g => mk_candidate "huggingface_datasets" (ReMatch.groups [⟨g.1⟩, ⟨g.2⟩]) f.path f.ts))

/-- `scan_repository`: fold `_scan_file` over the eligible files (file
eligibility and directory traversal are out of embedded scope, per the
spec; the argument list is the eligible files in walk order). -/
def scan_repository (files : List FileInput) : List Entry :=
  files.foldl (fun acc f => (file_candidates f).foldl add_entry acc) []

/-- All candidates of a scan in discovery order, before filter and dedup. -/
def all_candidates (files : List FileInput) : List Entry :=
  files.foldr (fun f r => file_candidates f ++ r) []

/-! ### Classification phase -/

/-- The permissive-marker substrings of `_risk_from_licence`. -/
def RISK_PERMISSIVE : List String :=
  ["cc0", "public domain", "open government", "odc", "apache", "mit", "bsd"]

/-- `_risk_from_licence`: lower-case the licence text and classify by
substring containment. -/
def risk_from_licence (lic : String) : String :=
  let lic_l := pyLower lic
  if RISK_PERMISSIVE.any (fun k => pyIn k.data lic_l.data) then "low"
  else if pyIn "cc-by".data lic_l.data || pyIn "cc by".data lic_l.data then "low"
  else if lic_l = "unknown" ∨ lic_l = "" ∨ lic_l = "none" ∨ lic_l = "other" then "review"
  else "review"

/-- `_looks_like_url`. -/
def looks_like_url (s : String) : Bool :=
  "http://".data.isPrefixOf s.data || "https://".data.isPrefixOf s.data

/-- Modelled from the spec: `urlparse(ref).netloc` (Python standard
library, not part of this repository) for the absolute http/https URLs
that `_classify_reference` feeds it — the spec's "inspect the URL's
host".  The authority is everything between the scheme's `//` and the
next `/`, `?` or `#`. -/
def netlocOf (s : String) : String :=
  let rest :=
    if "https://".data.isPrefixOf s.data then s.data.drop 8
    else if "http://".data.isPrefixOf s.data then s.data.drop 7
    else []
  ⟨rest.takeWhile (fun c => c ≠ '/' ∧ c ≠ '?' ∧ c ≠ '#')⟩

/-- The id normalization of `_classify_reference` branch 1:
`hf_id.replace("https://huggingface.co/datasets/", "").strip().strip("/")`. -/
def normalizeHfId (r : String) : String :=
  stripSlashes (pyStrip ⟨pyReplace "https://huggingface.co/datasets/".data r.data⟩)

/-- Branch 1 of `_classify_reference` after the lookup: a truthy licence
string yields the remote result, otherwise the heuristic fallback. -/
def classify_hf_branch (fetch : String → Option String) (hf_id : String) :
    String × String × String × String :=
  match fetch hf_id with
  | some lic =>
    if lic = "" then
      ("Unknown", "heuristic", "No license field found for \x27" ++ hf_id ++ "\x27", "review")
    else
      (lic, "huggingface_api", "License read from HF card for \x27" ++ hf_id ++ "\x27",
        risk_from_licence lic)
  | none =>
    ("Unknown", "heuristic", "No license field found for \x27" ++ hf_id ++ "\x27", "review")

/-- Branch 2 of `_classify_reference`: host heuristics for direct URLs. -/
def classify_url_branch (ref : String) : String × String × String × String :=
  let host := pyLower (netlocOf ref)
  if pyIn "data.gov".data host.data || pyIn "europa.eu".data host.data then
    ("Open Government", "heuristic", "Public sector domain \x27" ++ host ++ "\x27", "low")
  else if pyIn "kaggle.com".data host.data then
    ("Varies (Kaggle)", "heuristic", "Check the dataset page license on Kaggle", "review")
  else if pyIn "huggingface.co".data host.data then
    ("Unknown", "heuristic", "HF link but not a dataset card; inspect manually", "review")
  else
    ("Unknown", "heuristic", "External host \x27" ++ host ++ "\x27", "review")

/-- `_classify_reference`: returns `(licence, source, notes, risk_flag)`.
The guard of branch 1 is `if hf_id:` where `hf_id` is the reference when
the kind is one of the two hosted kinds — hence the non-emptiness test. -/
def classify_reference (fetch : String → Option String) (e : Entry) :
    String × String × String × String :=
  if (e.type = "huggingface_datasets" ∨ e.type = "huggingface_load_dataset") ∧
      e.reference ≠ "" then
    classify_hf_branch fetch (normalizeHfId e.reference)
  else if looks_like_url e.reference then
    classify_url_branch e.reference
  else if DATA_EXTS.any (fun ext => ext.data.isSuffixOf (pyLower e.reference).data) then
    ("Proprietary/Project-internal", "heuristic", "Local file path in repo", "review")
  else
    ("Unknown", "heuristic", "Pattern matched but no license inference", "review")

/-- One step of `enrich_with_licences`: add the four classification
fields to an entry. -/
def enrich_entry (fetch : String → Option String) (e : Entry) : Entry :=
  let r := classify_reference fetch e
  { e with licence := some r.1, licence_source := some r.2.1,
           notes := some r.2.2.1, risk_flag := some r.2.2.2 }

/-- `enrich_with_licences`: classify every discovered reference once. -/
def enrich_with_licences (fetch : String → Option String) (l : List Entry) :
    List Entry :=
  l.map (enrich_entry fetch)

/-! ### Helper lemmas about the scan fold -/

lemma add_entry_cases (acc : List Entry) (c : Entry) :
    add_entry acc c = acc ∨ add_entry acc c = acc ++ [c] := by
  unfold add_entry; split_ifs <;> simp

lemma mem_add_entry_of_mem {acc : List Entry} {a : Entry} (h : a ∈ acc) (c : Entry) :
    a ∈ add_entry acc c := by
  rcases add_entry_cases acc c with h1 | h1 <;> rw [h1] <;> simp [h]

lemma mem_foldl_add_entry_of_mem {a : Entry} :
    ∀ (cs acc : List Entry), a ∈ acc → a ∈ cs.foldl add_entry acc
  | [], _, h => h
  | c :: cs, acc, h => mem_foldl_add_entry_of_mem cs (add_entry acc c) (mem_add_entry_of_mem h c)

lemma mem_src_of_mem_foldl {e : Entry} :
    ∀ (cs acc : List Entry), e ∈ cs.foldl add_entry acc → e ∈ acc ∨ e ∈ cs := by
  intro cs
  induction cs with
  | nil => intro acc h; exact Or.inl h
  | cons c cs ih =>
    intro acc h
    rcases ih (add_entry acc c) h with h1 | h1
    · rcases add_entry_cases acc c with h2 | h2 <;> rw [h2] at h1
      · exact Or.inl h1
      · rcases List.mem_append.mp h1 with h3 | h3
        · exact Or.inl h3
        · exact Or.inr (by simp at h3; simp [h3])
    · exact Or.inr (List.mem_cons_of_mem c h1)

lemma passes_of_mem_foldl {e : Entry} :
    ∀ (cs acc : List Entry), (∀ a ∈ acc, passes_filter a.reference = true) →
      e ∈ cs.foldl add_entry acc → passes_filter e.reference = true := by
  intro cs
  induction cs with
  | nil => intro acc hacc h; exact hacc e h
  | cons c cs ih =>
    intro acc hacc h
    refine ih (add_entry acc c) ?_ h
    intro a ha
    unfold add_entry at ha
    split_ifs at ha with hp hd
    · exact hacc a ha
    · rcases List.mem_append.mp ha with h3 | h3
      · exact hacc a h3
      · simp at h3; simpa [h3] using hp
    · exact hacc a ha

lemma pairwise_foldl_add_entry :
    ∀ (cs acc : List Entry),
      acc.Pairwise (fun a b => dedup_key a ≠ dedup_key b) →
      (cs.foldl add_entry acc).Pairwise (fun a b => dedup_key a ≠ dedup_key b) := by
  intro cs
  induction cs with
  | nil => intro acc h; exact h
  | cons c cs ih =>
    intro acc hacc
    refine ih (add_entry acc c) ?_
    unfold add_entry
    split_ifs with hp hd
    · exact hacc
    · refine List.pairwise_append.mpr ⟨hacc, List.pairwise_singleton _ _, ?_⟩
      intro a ha b hb
      simp at hb; subst hb
      intro hk
      exact hd ⟨a, ha, hk⟩
    · exact hacc

lemma filter_passes_cons (c : Entry) (cs : List Entry) :
    (c :: cs).filter (fun d => passes_filter d.reference) =
      if passes_filter c.reference then
        c :: cs.filter (fun d => passes_filter d.reference)
      else cs.filter (fun d => passes_filter d.reference) := by
  simp [List.filter_cons]

lemma find_char_of_mem_foldl {e : Entry} :
    ∀ (cs acc : List Entry), e ∈ cs.foldl add_entry acc →
      e ∈ acc ∨ ((∀ a ∈ acc, dedup_key a ≠ dedup_key e) ∧
        (cs.filter (fun c => passes_filter c.reference)).find?
          (fun c => decide (dedup_key c = dedup_key e)) = some e) := by
  intro cs
  induction cs with
  | nil => intro acc h; exact Or.inl h
  | cons c cs ih =>
    intro acc h
    rcases ih (add_entry acc c) h with h1 | ⟨hacc, hfind⟩
    · -- e came from the processed accumulator
      unfold add_entry at h1
      split_ifs at h1 with hp hd
      · exact Or.inl h1
      · rcases List.mem_append.mp h1 with h3 | h3
        · exact Or.inl h3
        · simp at h3; subst h3
          refine Or.inr ⟨fun a ha hk => hd ⟨a, ha, hk⟩, ?_⟩
          rw [filter_passes_cons, if_pos hp]
          exact List.find?_cons_of_pos _ (by simp)
      · exact Or.inl h1
    · -- e was found strictly later
      refine Or.inr ⟨fun a ha => hacc a (mem_add_entry_of_mem ha c), ?_⟩
      by_cases hp : passes_filter c.reference = true
      · have hkey : dedup_key c ≠ dedup_key e := by
          intro hk
          by_cases hd : ∃ d ∈ acc, dedup_key d = dedup_key c
          · obtain ⟨d, hdm, hdk⟩ := hd
            exact hacc d (mem_add_entry_of_mem hdm c) (hdk.trans hk)
          · have hc : c ∈ add_entry acc c := by
              unfold add_entry; rw [if_pos hp, if_neg hd]; simp
            exact hacc c hc hk
        rw [filter_passes_cons, if_pos hp, List.find?_cons_of_neg _ (by simpa using hkey)]
        exact hfind
      · rw [filter_passes_cons, if_neg hp]
        exact hfind

lemma mem_foldl_of_find_char {c : Entry} :
    ∀ (cs acc : List Entry), passes_filter c.reference = true →
      (∀ a ∈ acc, dedup_key a ≠ dedup_key c) →
      (cs.filter (fun d => passes_filter d.reference)).find?
        (fun d => decide (dedup_key d = dedup_key c)) = some c →
      c ∈ cs.foldl add_entry acc := by
  intro cs
  induction cs with
  | nil => intro acc _ _ hfind; simp at hfind
  | cons c1 cs ih =>
    intro acc hp hacc hfind
    by_cases hp1 : passes_filter c1.reference = true
    · rw [filter_passes_cons, if_pos hp1] at hfind
      by_cases hk : dedup_key c1 = dedup_key c
      · rw [List.find?_cons_of_pos _ (by simpa using hk)] at hfind
        have hc1 : c1 = c := by simpa using hfind
        subst hc1
        have hin : c1 ∈ add_entry acc c1 := by
          unfold add_entry
          rw [if_pos hp, if_neg (fun ⟨d, hdm, hdk⟩ => hacc d hdm hdk)]
          simp
        exact mem_foldl_add_entry_of_mem cs (add_entry acc c1) hin
      · rw [List.find?_cons_of_neg _ (by simpa using hk)] at hfind
        refine ih (add_entry acc c1) hp ?_ hfind
        intro a ha
        unfold add_entry at ha
        rw [if_pos hp1] at ha
        by_cases hd : ∃ d ∈ acc, dedup_key d = dedup_key c1
        · rw [if_pos hd] at ha; exact hacc a ha
        · rw [if_neg hd] at ha
          rcases List.mem_append.mp ha with h3 | h3
          · exact hacc a h3
          · simp at h3; subst h3; exact hk
    · rw [filter_passes_cons, if_neg hp1] at hfind
      have hskip : add_entry acc c1 = acc := by unfold add_entry; rw [if_neg hp1]
      refine ih (add_entry acc c1) hp ?_ hfind
      rw [hskip]; exact hacc

lemma all_candidates_cons (f : FileInput) (files : List FileInput) :
    all_candidates (f :: files) = file_candidates f ++ all_candidates files := rfl

lemma scan_eq_foldl_aux :
    ∀ (files : List FileInput) (acc : List Entry),
      files.foldl (fun acc f => (file_candidates f).foldl add_entry acc) acc =
        (all_candidates files).foldl add_entry acc := by
  intro files
  induction files with
  | nil => intro acc; rfl
  | cons f files ih =>
    intro acc
    rw [List.foldl_cons, ih, all_candidates_cons, List.foldl_append]

lemma scan_eq_foldl (files : List FileInput) :
    scan_repository files = (all_candidates files).foldl add_entry [] :=
  scan_eq_foldl_aux files []

/-! ### Dedup keys versus (kind, lowercased value) pairs -/

/-- The pattern names, in the insertion order of the `patterns` dict. -/
def PATTERN_NAMES : List String :=
  ["huggingface_load_dataset", "pandas_read_csv", "dataset_urls", "huggingface_datasets"]

lemma data_append (s t : String) : (s ++ t).data = s.data ++ t.data :=
  String.data_append s t

lemma str_ext {s t : String} (h : s.data = t.data) : s = t :=
  String.ext h

lemma colon_append_inj :
    ∀ (t1 x t2 y : List Char), ':' ∉ t1 → ':' ∉ t2 →
      t1 ++ ':' :: x = t2 ++ ':' :: y → t1 = t2 ∧ x = y := by
  intro t1
  induction t1 with
  | nil =>
    intro x t2 y _ h2 heq
    cases t2 with
    | nil => simpa using heq
    | cons d t2 =>
      simp at heq
      rw [← heq.1] at h2; simp at h2
  | cons a t1 ih =>
    intro x t2 y h1 h2 heq
    cases t2 with
    | nil =>
      simp at heq
      rw [heq.1] at h1; simp at h1
    | cons d t2 =>
      simp only [List.cons_append, List.cons.injEq] at heq
      simp only [List.mem_cons, not_or] at h1 h2
      obtain ⟨h3, h4⟩ := ih x t2 y h1.2 h2.2 heq.2
      exact ⟨by rw [heq.1, h3], h4⟩

lemma dedup_key_eq_iff {a b : Entry} (ha : ':' ∉ a.type.data) (hb : ':' ∉ b.type.data) :
    dedup_key a = dedup_key b ↔
      (a.type = b.type ∧ pyLower a.reference = pyLower b.reference) := by
  constructor
  · intro h
    have hcolon : (":" : String).data = [':'] := rfl
    have hdata : a.type.data ++ ':' :: (pyLower a.reference).data =
        b.type.data ++ ':' :: (pyLower b.reference).data := by
      have h2 := congrArg String.data h
      simpa [dedup_key, data_append, hcolon, List.append_assoc] using h2
    obtain ⟨h1, h2⟩ := colon_append_inj _ _ _ _ ha hb hdata
    exact ⟨str_ext h1, str_ext h2⟩
  · rintro ⟨h1, h2⟩
    unfold dedup_key; rw [h1, h2]

lemma type_mem_of_mem_file_candidates {e : Entry} {f : FileInput}
    (h : e ∈ file_candidates f) : e.type ∈ PATTERN_NAMES := by
  unfold file_candidates at h
  simp only [List.mem_append, List.mem_map] at h
  rcases h with ((⟨c, _, rfl⟩ | ⟨c, _, rfl⟩) | ⟨c, _, rfl⟩) | ⟨c, _, rfl⟩ <;>
    simp [mk_candidate, PATTERN_NAMES]

lemma type_mem_of_mem_all_candidates {e : Entry} :
    ∀ {files : List FileInput}, e ∈ all_candidates files → e.type ∈ PATTERN_NAMES := by
  intro files
  induction files with
  | nil => intro h; simp [all_candidates] at h
  | cons f files ih =>
    intro h
    rw [all_candidates_cons] at h
    rcases List.mem_append.mp h with h | h
    · exact type_mem_of_mem_file_candidates h
    · exact ih h

lemma colon_not_mem_of_pattern_name {t : String} (h : t ∈ PATTERN_NAMES) :
    ':' ∉ t.data := by
  simp only [PATTERN_NAMES, List.mem_cons, List.not_mem_nil, or_false] at h
  rcases h with rfl | rfl | rfl | rfl <;> decide

lemma find_congr {α : Type} (l : List α) (p q : α → Bool) (h : ∀ x ∈ l, p x = q x) :
    l.find? p = l.find? q := by
  induction l with
  | nil => rfl
  | cons x xs ih =>
    have hx := h x (List.mem_cons_self x xs)
    cases hq : q x
    · rw [List.find?_cons_of_neg _ (by simp [hx, hq]),
        List.find?_cons_of_neg _ (by simp [hq])]
      exact ih (fun y hy => h y (List.mem_cons_of_mem x hy))
    · rw [List.find?_cons_of_pos _ (by simp [hx, hq]),
        List.find?_cons_of_pos _ (by simp [hq])]

/-! ### Classification case lemmas -/

lemma classify_hf_branch_none {fetch : String → Option String} {hf_id : String}
    (h : fetch hf_id = none) :
    classify_hf_branch fetch hf_id =
      ("Unknown", "heuristic",
        "No license field found for \x27" ++ hf_id ++ "\x27", "review") := by
  unfold classify_hf_branch; rw [h]

lemma classify_hf_branch_some {fetch : String → Option String} {hf_id lic : String}
    (h : fetch hf_id = some lic) :
    classify_hf_branch fetch hf_id =
      if lic = "" then
        ("Unknown", "heuristic",
          "No license field found for \x27" ++ hf_id ++ "\x27", "review")
      else
        (lic, "huggingface_api",
          "License read from HF card for \x27" ++ hf_id ++ "\x27",
          risk_from_licence lic) := by
  unfold classify_hf_branch; rw [h]

lemma classify_source_cases (fetch : String → Option String) (e : Entry) :
    (classify_reference fetch e).2.1 = "huggingface_api" ∨
      (classify_reference fetch e).2.1 = "heuristic" := by
  by_cases h1 : (e.type = "huggingface_datasets" ∨ e.type = "huggingface_load_dataset") ∧
      e.reference ≠ ""
  · rw [classify_reference, if_pos h1]
    cases hf : fetch (normalizeHfId e.reference) with
    | none => rw [classify_hf_branch_none hf]; exact Or.inr rfl
    | some lic =>
      rw [classify_hf_branch_some hf]
      by_cases h2 : lic = ""
      · rw [if_pos h2]; exact Or.inr rfl
      · rw [if_neg h2]; exact Or.inl rfl
  · rw [classify_reference, if_neg h1]
    simp only [classify_url_branch]
    split_ifs <;> first | exact Or.inl rfl | exact Or.inr rfl

lemma classify_heuristic_unknown (fetch : String → Option String) (e : Entry)
    (h1 : (classify_reference fetch e).2.1 = "heuristic")
    (h2 : (classify_reference fetch e).1 = "Unknown") :
    (classify_reference fetch e).2.2.2 = "review" := by
  by_cases hg : (e.type = "huggingface_datasets" ∨ e.type = "huggingface_load_dataset") ∧
      e.reference ≠ ""
  · rw [classify_reference, if_pos hg] at h1 h2 ⊢
    cases hf : fetch (normalizeHfId e.reference) with
    | none => rw [classify_hf_branch_none hf]
    | some lic =>
      rw [classify_hf_branch_some hf] at h1 ⊢
      by_cases hl : lic = ""
      · rw [if_pos hl]
      · rw [if_neg hl] at h1
        simp at h1
  · rw [classify_reference, if_neg hg] at h1 h2 ⊢
    simp only [classify_url_branch] at h1 h2 ⊢
    split_ifs at h1 h2 ⊢ <;> first | rfl | simp at h2

/-! ### Risk-rule lemmas -/

lemma risk_low_of_key (lic k : String) (hk : k ∈ RISK_PERMISSIVE)
    (hc : pyIn k.data (pyLower lic).data = true) : risk_from_licence lic = "low" := by
  have h : RISK_PERMISSIVE.any (fun s => pyIn s.data (pyLower lic).data) = true :=
    List.any_eq_true.mpr ⟨k, hk, hc⟩
  simp only [risk_from_licence]
  rw [if_pos h]

lemma risk_low_of_ccby (lic : String)
    (h : pyIn "cc-by".data (pyLower lic).data = true ∨
      pyIn "cc by".data (pyLower lic).data = true) :
    risk_from_licence lic = "low" := by
  simp only [risk_from_licence]
  by_cases h1 : RISK_PERMISSIVE.any (fun k => pyIn k.data (pyLower lic).data) = true
  · rw [if_pos h1]
  · rw [Bool.not_eq_true] at h1
    have h2 : (pyIn "cc-by".data (pyLower lic).data ||
        pyIn "cc by".data (pyLower lic).data) = true := by
      rcases h with h | h <;> simp [h]
    rw [if_neg (by simp [h1]), if_pos h2]

/-! ### Claim theorems -/

/-- Claim C4 (confirmed): for every hosted-dataset reference (kind
`huggingface_load_dataset` or `huggingface_datasets`; references are
non-empty by the filter invariant), if the single remote metadata lookup
fails in any way — `_fetch_hf_license` turns every network error,
timeout, non-JSON response, HTTP error and missing/empty licence field
into `None`, modelled as `fetch _ = none` — classification does not
fail: it returns licence "Unknown", the heuristic source tag, a note
naming the identifier, and risk "review" (and the classifier is a total
function, so no error can abort the scan). -/
theorem c4_lookup_failure (fetch : String → Option String) (e : Entry)
    (h1 : e.type = "huggingface_load_dataset" ∨ e.type = "huggingface_datasets")
    (h2 : e.reference ≠ "")
    (h3 : fetch (normalizeHfId e.reference) = none) :
    classify_reference fetch e =
      ("Unknown", "heuristic",
        "No license field found for \x27" ++ normalizeHfId e.reference ++ "\x27",
        "review") := by
  rw [classify_reference, if_pos ⟨h1.symm, h2⟩, classify_hf_branch_none h3]

/-- Witness for C4: the failing lookup on `load_dataset("squad")`. -/
theorem c4_lookup_failure_witness :
    classify_reference (fun _ => none)
        ⟨"huggingface_load_dataset", "squad", "f.py", "t", none, none, none, none⟩ =
      ("Unknown", "heuristic", "No license field found for \x27squad\x27", "review") :=
  c4_lookup_failure (fun _ => none)
    ⟨"huggingface_load_dataset", "squad", "f.py", "t", none, none, none, none⟩
    (Or.inl rfl) (by decide) rfl

/-- Claim C5 (confirmed): for every hosted-dataset reference whose
remote lookup succeeds with a non-empty licence string, the enriched
tuple carries the remote-lookup provenance tag (the code spells it
`"huggingface_api"`; the spec's name `remote_lookup` is illustrative),
the risk computed from the licence text by `_risk_from_licence`, and a
note recording the dataset identifier; moreover the provenance tag of
any classification is always one of the two tags. -/
theorem c5_remote_success (fetch : String → Option String) (e : Entry) (lic : String)
    (h1 : e.type = "huggingface_load_dataset" ∨ e.type = "huggingface_datasets")
    (h2 : e.reference ≠ "")
    (h3 : fetch (normalizeHfId e.reference) = some lic)
    (h4 : lic ≠ "") :
    classify_reference fetch e =
        (lic, "huggingface_api",
          "License read from HF card for \x27" ++ normalizeHfId e.reference ++ "\x27",
          risk_from_licence lic) ∧
      ∀ (f : String → Option String) (d : Entry),
        (classify_reference f d).2.1 = "huggingface_api" ∨
          (classify_reference f d).2.1 = "heuristic" := by
  refine ⟨?_, classify_source_cases⟩
  rw [classify_reference, if_pos ⟨h1.symm, h2⟩, classify_hf_branch_some h3, if_neg h4]

/-- Witness for C5: Scenario A, `load_dataset("squad")` with the lookup
mocked to return "cc-by-4.0", yielding risk low. -/
theorem c5_remote_success_witness :
    classify_reference (fun _ => some "cc-by-4.0")
        ⟨"huggingface_load_dataset", "squad", "f.py", "t", none, none, none, none⟩ =
        ("cc-by-4.0", "huggingface_api",
          "License read from HF card for \x27squad\x27", "low") ∧
      risk_from_licence "cc-by-4.0" = "low" :=
  ⟨(c5_remote_success (fun _ => some "cc-by-4.0")
      ⟨"huggingface_load_dataset", "squad", "f.py", "t", none, none, none, none⟩
      "cc-by-4.0" (Or.inl rfl) (by decide) rfl (by decide)).1,
    by decide⟩

/-- Claim C3 (confirmed): for every enriched reference, if its licence
source is the heuristic tag and its derived licence is "Unknown", its
risk is "review"; and every licence string containing one of the
recognized permissive markers (the `RISK_PERMISSIVE` set or a cc-by
attribution marker) gets risk "low" from `_risk_from_licence`. -/
theorem c3_risk_monotonicity :
    (∀ (fetch : String → Option String) (l : List Entry),
        ∀ e ∈ enrich_with_licences fetch l,
          e.licence_source = some "heuristic" → e.licence = some "Unknown" →
            e.risk_flag = some "review") ∧
      (∀ lic k : String, k ∈ RISK_PERMISSIVE ++ ["cc-by", "cc by"] →
        pyIn k.data (pyLower lic).data = true → risk_from_licence lic = "low") := by
  constructor
  · intro fetch l e he h1 h2
    obtain ⟨a, _, rfl⟩ := List.mem_map.mp he
    have h1p : (classify_reference fetch a).2.1 = "heuristic" := by
      have := h1
      simpa [enrich_entry] using this
    have h2p : (classify_reference fetch a).1 = "Unknown" := by
      have := h2
      simpa [enrich_entry] using this
    exact congrArg some (classify_heuristic_unknown fetch a h1p h2p)
  · intro lic k hk hc
    rcases List.mem_append.mp hk with hk | hk
    · exact risk_low_of_key lic k hk hc
    · simp only [List.mem_cons, List.not_mem_nil, or_false] at hk
      rcases hk with rfl | rfl
      · exact risk_low_of_ccby lic (Or.inl hc)
      · exact risk_low_of_ccby lic (Or.inr hc)

/-- Witness for C3: a fallback-classified entry gets risk review, and
the licence string "MIT" gets risk low. -/
theorem c3_risk_monotonicity_witness :
    (⟨"dataset_urls", "abc", "f.py", "t", some "Unknown", some "heuristic",
        some "Pattern matched but no license inference", some "review"⟩ : Entry).risk_flag =
        some "review" ∧
      risk_from_licence "MIT" = "low" :=
  ⟨c3_risk_monotonicity.1 (fun _ => none)
      [⟨"dataset_urls", "abc", "f.py", "t", none, none, none, none⟩]
      ⟨"dataset_urls", "abc", "f.py", "t", some "Unknown", some "heuristic",
        some "Pattern matched but no license inference", some "review"⟩
      (by decide) (by decide) (by decide),
    c3_risk_monotonicity.2 "MIT" "mit" (by decide) (by decide)⟩

/-- Claim C9 (confirmed): `_risk_from_licence` tests the permissive
markers by substring containment on the lowercased licence text, so any
licence string containing one of the nine marker substrings anywhere —
even inside an unrelated word such as "Limited", which contains "mit" —
is classified as risk "low". -/
theorem c9_substring_markers (lic k : String)
    (hk : k ∈ (["cc0", "public domain", "open government", "odc", "apache",
        "mit", "bsd", "cc-by", "cc by"] : List String))
    (hc : pyIn k.data (pyLower lic).data = true) :
    risk_from_licence lic = "low" := by
  simp only [List.mem_cons, List.not_mem_nil, or_false] at hk
  rcases hk with rfl | rfl | rfl | rfl | rfl | rfl | rfl | rfl | rfl <;>
    first
      | exact risk_low_of_key lic _ (by decide) hc
      | exact risk_low_of_ccby lic (Or.inl hc)
      | exact risk_low_of_ccby lic (Or.inr hc)

/-- Witness for C9: "Limited" contains "mit", hence risk low. -/
theorem c9_substring_markers_witness : risk_from_licence "Limited" = "low" :=
  c9_substring_markers "Limited" "mit" (by decide) (by decide)

/-- Claim C8 (confirmed): enrichment mutates no identity field — kind,
value, origin file and discovery timestamp are unchanged pointwise, no
reference is deleted (the length is preserved), and exactly the four
classification fields are populated, each exactly once, with the result
of `_classify_reference` for that entry. -/
theorem c8_enrichment_frame (fetch : String → Option String) (l : List Entry) :
    (enrich_with_licences fetch l).length = l.length ∧
      (enrich_with_licences fetch l).map Entry.type = l.map Entry.type ∧
      (enrich_with_licences fetch l).map Entry.reference = l.map Entry.reference ∧
      (enrich_with_licences fetch l).map Entry.file = l.map Entry.file ∧
      (enrich_with_licences fetch l).map Entry.found_at = l.map Entry.found_at ∧
      (enrich_with_licences fetch l).map Entry.licence =
        l.map (fun e => some (classify_reference fetch e).1) ∧
      (enrich_with_licences fetch l).map Entry.licence_source =
        l.map (fun e => some (classify_reference fetch e).2.1) ∧
      (enrich_with_licences fetch l).map Entry.notes =
        l.map (fun e => some (classify_reference fetch e).2.2.1) ∧
      (enrich_with_licences fetch l).map Entry.risk_flag =
        l.map (fun e => some (classify_reference fetch e).2.2.2) := by
  unfold enrich_with_licences
  refine ⟨by simp, ?_, ?_, ?_, ?_, ?_, ?_, ?_, ?_⟩ <;>
    · rw [List.map_map]
      exact List.map_congr_left (fun e _ => rfl)

/-- Claim C7 (confirmed): every reference in the final list has a
non-empty value of length at least 3 that is not in the generic-token
denylist; `_scan_file` discards violating candidates before insertion. -/
theorem c7_denylist_invariant (files : List FileInput) :
    ∀ e ∈ scan_repository files,
      e.reference ≠ "" ∧ 3 ≤ e.reference.length ∧ e.reference ∉ GENERIC_TOKENS := by
  intro e he
  rw [scan_eq_foldl] at he
  have hp := passes_of_mem_foldl (all_candidates files) []
    (by intro a ha; simp at ha) he
  unfold passes_filter at hp
  rw [decide_eq_true_eq] at hp
  push_neg at hp
  exact ⟨hp.1, hp.2.2, hp.2.1⟩

/-- Witness for C7: the single reference scanned from
`load_dataset("imdb")` satisfies the denylist invariant. -/
theorem c7_denylist_invariant_witness :
    (⟨"huggingface_load_dataset", "imdb", "g.py", "t",
        none, none, none, none⟩ : Entry).reference ≠ "" ∧
      3 ≤ (⟨"huggingface_load_dataset", "imdb", "g.py", "t",
        none, none, none, none⟩ : Entry).reference.length ∧
      (⟨"huggingface_load_dataset", "imdb", "g.py", "t",
        none, none, none, none⟩ : Entry).reference ∉ GENERIC_TOKENS :=
  c7_denylist_invariant [⟨"g.py", "load_dataset(\"imdb\")", "t"⟩]
    ⟨"huggingface_load_dataset", "imdb", "g.py", "t", none, none, none, none⟩
    (by decide)

/-- Claim C2 (confirmed): in the final, enriched list no two references
share the same (kind, lowercased value) pair; and every reference kept
by the scan is the first candidate — in global discovery order across
all files, among the candidates surviving normalization and the filter —
with its (kind, lowercased value), so its origin file is the first file
where that pair was matched. -/
theorem c2_dedup_first_wins (fetch : String → Option String) (files : List FileInput) :
    (enrich_with_licences fetch (scan_repository files)).Pairwise
        (fun a b => ¬(a.type = b.type ∧ pyLower a.reference = pyLower b.reference)) ∧
      ∀ e ∈ scan_repository files,
        ((all_candidates files).filter (fun c => passes_filter c.reference)).find?
            (fun c => decide (c.type = e.type ∧ pyLower c.reference = pyLower e.reference)) =
          some e := by
  constructor
  · have hpw : (scan_repository files).Pairwise
        (fun a b => dedup_key a ≠ dedup_key b) := by
      rw [scan_eq_foldl]
      exact pairwise_foldl_add_entry _ _ List.Pairwise.nil
    have hpw2 : (scan_repository files).Pairwise
        (fun a b => ¬(a.type = b.type ∧ pyLower a.reference = pyLower b.reference)) := by
      refine hpw.imp ?_
      intro a b hk hcon
      exact hk (by unfold dedup_key; rw [hcon.1, hcon.2])
    unfold enrich_with_licences
    rw [List.pairwise_map]
    refine hpw2.imp ?_
    intro a b hab hcon
    exact hab ⟨hcon.1, hcon.2⟩
  · intro e he
    have hmem := he
    rw [scan_eq_foldl] at hmem
    rcases find_char_of_mem_foldl (all_candidates files) [] hmem with h | ⟨_, hfind⟩
    · simp at h
    · have he_all : e ∈ all_candidates files :=
        (List.mem_filter.mp (List.mem_of_find?_eq_some hfind)).1
      have hecol := colon_not_mem_of_pattern_name (type_mem_of_mem_all_candidates he_all)
      rw [← hfind]
      apply find_congr
      intro x hx
      have hxcol := colon_not_mem_of_pattern_name
        (type_mem_of_mem_all_candidates (List.mem_filter.mp hx).1)
      exact decide_eq_decide.mpr (dedup_key_eq_iff hxcol hecol).symm

/-- Witness for C2: Scenario C style — the same `"dup.csv"` literal in
two different files yields one reference whose origin is the first file. -/
theorem c2_dedup_first_wins_witness :
    (enrich_with_licences (fun _ => none)
        (scan_repository [⟨"f1.py", "\"dup.csv\"", "t1"⟩,
          ⟨"f2.py", "\"dup.csv\"", "t2"⟩])).Pairwise
        (fun a b => ¬(a.type = b.type ∧ pyLower a.reference = pyLower b.reference)) ∧
      ((all_candidates [⟨"f1.py", "\"dup.csv\"", "t1"⟩,
          ⟨"f2.py", "\"dup.csv\"", "t2"⟩]).filter
          (fun c => passes_filter c.reference)).find?
          (fun c => decide (c.type =
              (⟨"dataset_urls", "dup.csv", "f1.py", "t1",
                none, none, none, none⟩ : Entry).type ∧
            pyLower c.reference =
              pyLower (⟨"dataset_urls", "dup.csv", "f1.py", "t1",
                none, none, none, none⟩ : Entry).reference)) =
        some ⟨"dataset_urls", "dup.csv", "f1.py", "t1", none, none, none, none⟩ :=
  ⟨(c2_dedup_first_wins (fun _ => none)
      [⟨"f1.py", "\"dup.csv\"", "t1"⟩, ⟨"f2.py", "\"dup.csv\"", "t2"⟩]).1,
    (c2_dedup_first_wins (fun _ => none)
      [⟨"f1.py", "\"dup.csv\"", "t1"⟩, ⟨"f2.py", "\"dup.csv\"", "t2"⟩]).2
      ⟨"dataset_urls", "dup.csv", "f1.py", "t1", none, none, none, none⟩ (by decide)⟩

/-- Claim C10 (corrected, amended form): the generic-token denylist test
of `_scan_file` is case-sensitive while deduplication is
case-insensitive.  Every candidate value that differs from a denylist
token only by letter case and has length at least 3 passes the filter;
it becomes a reference in the final list provided it is the first
filter-passing candidate, in discovery order, with its (kind, lowercased
value) — a later case-variant duplicate is silently dropped. -/
theorem c10_denylist_case_sensitivity (files : List FileInput) (c : Entry) (tok : String)
    (h1 : c ∈ all_candidates files)
    (h2 : tok ∈ GENERIC_TOKENS)
    (h3 : pyLower c.reference = pyLower tok)
    (h4 : c.reference ≠ tok)
    (h5 : 3 ≤ c.reference.length)
    (h6 : ((all_candidates files).filter (fun d => passes_filter d.reference)).find?
        (fun d => decide (d.type = c.type ∧ pyLower d.reference = pyLower c.reference)) =
      some c) :
    passes_filter c.reference = true ∧ c ∈ scan_repository files := by
  have htok_low : ∀ t ∈ GENERIC_TOKENS, pyLower t = t := by decide
  have hnot : c.reference ∉ GENERIC_TOKENS := by
    intro hmem
    have e1 : pyLower c.reference = c.reference := htok_low _ hmem
    have e2 : pyLower tok = tok := htok_low _ h2
    exact h4 (by rw [← e1, h3, e2])
  have hpass : passes_filter c.reference = true := by
    unfold passes_filter
    rw [decide_eq_true_eq]
    push_neg
    exact ⟨fun h => absurd (h ▸ h5) (by decide), hnot, h5⟩
  refine ⟨hpass, ?_⟩
  rw [scan_eq_foldl]
  have hcol_c := colon_not_mem_of_pattern_name (type_mem_of_mem_all_candidates h1)
  have hconv : ((all_candidates files).filter (fun d => passes_filter d.reference)).find?
      (fun d => decide (dedup_key d = dedup_key c)) = some c := by
    rw [← h6]
    apply find_congr
    intro x hx
    have hxcol := colon_not_mem_of_pattern_name
      (type_mem_of_mem_all_candidates (List.mem_filter.mp hx).1)
    exact decide_eq_decide.mpr (dedup_key_eq_iff hxcol hcol_c)
  exact mem_foldl_of_find_char (all_candidates files) [] hpass
    (by intro a ha; simp at ha) hconv

/-- Counterexample for C10 as stated: in a file containing the quoted
literals ".CSV" and ".Csv", the captured value ".Csv" differs from the
denylist token ".csv" only by letter case and has length 4, yet no
reference in the final list carries it — the earlier case-variant ".CSV"
wins the case-insensitive dedup. -/
theorem c10_counterexample :
    (".csv" ∈ GENERIC_TOKENS) ∧
      (∃ c ∈ all_candidates [⟨"a.py", "\".CSV\" \".Csv\"", "t"⟩],
        c.reference = ".Csv" ∧ pyLower c.reference = pyLower ".csv" ∧
          c.reference ≠ ".csv" ∧ 3 ≤ c.reference.length) ∧
      ∀ e ∈ scan_repository [⟨"a.py", "\".CSV\" \".Csv\"", "t"⟩],
        e.reference ≠ ".Csv" := by
  decide

/-- Witness for C10 (amended): the single candidate ".CSV" — a case
variant of the denylist token ".csv" — passes the filter and reaches the
final list. -/
theorem c10_denylist_case_sensitivity_witness :
    passes_filter (Entry.reference
        ⟨"dataset_urls", ".CSV", "b.py", "t", none, none, none, none⟩) = true ∧
      (⟨"dataset_urls", ".CSV", "b.py", "t", none, none, none, none⟩ : Entry) ∈
        scan_repository [⟨"b.py", "\".CSV\"", "t"⟩] :=
  c10_denylist_case_sensitivity [⟨"b.py", "\".CSV\"", "t"⟩]
    ⟨"dataset_urls", ".CSV", "b.py", "t", none, none, none, none⟩ ".csv"
    (by decide) (by decide) (by decide) (by decide) (by decide) (by decide)

/-- Claim C6 (confirmed): for a multi-group match, the
`huggingface_datasets` rule keeps only the second capture group (the
dataset path; the protocol group is discarded), every other rule joins
the captured groups, and the value is trimmed of surrounding whitespace;
every candidate the scanner builds carries such a normalized value, and
insertion adds the candidate unchanged (or drops it). -/
theorem c6_normalization :
    (∀ (ptype : String) (gs : List String),
        normalize_match ptype (ReMatch.groups gs) =
          if ptype = "huggingface_datasets" then pyStrip (gs.getD 1 "")
          else pyStrip (String.join gs)) ∧
      (∀ (ptype s : String), normalize_match ptype (ReMatch.single s) = pyStrip s) ∧
      (∀ (f : FileInput), ∀ e ∈ file_candidates f,
        ∃ m : ReMatch, e.reference = normalize_match e.type m) ∧
      (∀ (acc : List Entry) (c : Entry),
        add_entry acc c = acc ∨ add_entry acc c = acc ++ [c]) := by
  refine ⟨fun ptype gs => rfl, fun ptype s => rfl, ?_, add_entry_cases⟩
  intro f e he
  unfold file_candidates at he
  simp only [List.mem_append, List.mem_map] at he
  rcases he with ((⟨c, _, rfl⟩ | ⟨c, _, rfl⟩) | ⟨c, _, rfl⟩) | ⟨c, _, rfl⟩
  · exact ⟨ReMatch.single ⟨c⟩, rfl⟩
  · exact ⟨ReMatch.single ⟨c⟩, rfl⟩
  · exact ⟨ReMatch.single ⟨c⟩, rfl⟩
  · exact ⟨ReMatch.groups [⟨c.1⟩, ⟨c.2⟩], rfl⟩

/-- Witness for C6: the hosted-dataset rule keeps the path group, and a
concrete scanned candidate carries a normalized value. -/
theorem c6_normalization_witness :
    (normalize_match "huggingface_datasets"
        (ReMatch.groups ["https://", "org/name"]) = pyStrip "org/name") ∧
      ∃ m : ReMatch,
        (⟨"dataset_urls", "a.csv", "f.py", "t",
            none, none, none, none⟩ : Entry).reference =
          normalize_match
            (⟨"dataset_urls", "a.csv", "f.py", "t",
              none, none, none, none⟩ : Entry).type m :=
  ⟨c6_normalization.1 "huggingface_datasets" ["https://", "org/name"],
    c6_normalization.2.2.1 ⟨"f.py", "\"a.csv\"", "t"⟩
      ⟨"dataset_urls", "a.csv", "f.py", "t", none, none, none, none⟩ (by decide)⟩

/-- Counterexample for C1 as stated: on a file whose entire text is
`pd.read_csv("local/data.csv")` the pipeline produces two references,
not exactly one — the bare-literal `dataset_urls` pattern also matches
the quoted path, and dedup keys include the kind, so both survive. -/
theorem c1_counterexample :
    (scan_repository [⟨"f.py", "pd.read_csv(\"local/data.csv\")", "t1"⟩]).length = 2 := by
  decide

/-- Claim C1 (corrected, amended form): for a file whose entire text is
`pd.read_csv("local/data.csv")`, the pipeline produces exactly two
references, both with value "local/data.csv" — one of kind
`pandas_read_csv` and one of kind `dataset_urls` — and each is enriched
via the local-file branch with licence "Proprietary/Project-internal"
and risk "review", independently of the network oracle and timestamp. -/
theorem c1_scenario_b (fetch : String → Option String) (ts : String) :
    enrich_with_licences fetch
        (scan_repository [⟨"f.py", "pd.read_csv(\"local/data.csv\")", ts⟩]) =
      [⟨"pandas_read_csv", "local/data.csv", "f.py", ts,
          some "Proprietary/Project-internal", some "heuristic",
          some "Local file path in repo", some "review"⟩,
        ⟨"dataset_urls", "local/data.csv", "f.py", ts,
          some "Proprietary/Project-internal", some "heuristic",
          some "Local file path in repo", some "review"⟩] := by
  rfl
